import Mathlib

/-!
Verification development for the fastytranscript transcript fetcher.

The TypeScript source (`utils.ts` / `cli.mjs`) is shallowly embedded here:
JavaScript strings are modelled as `String` / `List Char`, JavaScript numbers
as `ℚ` (the claims only exercise values on which IEEE doubles are exact),
fallible operations as `Option`, and the regex-driven scanners of the source
as explicit, executable recursive scanners implementing exactly the matching
behaviour (leftmost match, greedy/lazy quantifiers, optional-group
backtracking) of the concrete regexes appearing in the source.
-/

namespace FastyTranscript

/-- Character class `[a-zA-Z0-9_-]` used by every identifier pattern in
`extractVideoId`. -/
def isIdChar (c : Char) : Bool :=
  c.isAlpha || c.isDigit || c == '_' || c == '-'

/-- JavaScript whitespace (`\s` in regexes, `String.prototype.trim`):
the ASCII whitespace characters plus no-break space, BOM and the
line/paragraph separators.  The claims only exercise the ASCII members. -/
def isJsSpace (c : Char) : Bool :=
  c == ' ' || c == '\t' || c == '\n' || c == '\r' || c == '\x0b' ||
  c == '\x0c' || c == '\u00A0' || c == '\u2028' || c == '\u2029' || c == '\uFEFF'

/-- Boolean prefix test on character lists (models `String.prototype.startsWith`
and literal-at-position regex matching). -/
def prefixMatches : List Char → List Char → Bool
  | [], _ => true
  | _ :: _, [] => false
  | a :: pat, b :: s => a == b && prefixMatches pat s

/-- Drop a literal prefix, returning the rest of the input on success. -/
def dropPrefixL : List Char → List Char → Option (List Char)
  | [], s => some s
  | _ :: _, [] => none
  | a :: pat, b :: s => if a == b then dropPrefixL pat s else none

/-- Capture of `([^"]*)` followed by the closing quote: splits at the first
double quote, failing when the input has none. -/
def takeUntilQuote (s : List Char) : Option (List Char × List Char) :=
  match s.dropWhile (fun c => !(c == '"')) with
  | '"' :: rest => some (s.takeWhile (fun c => !(c == '"')), rest)
  | _ => none

/-- Matching of `\s+` followed by more pattern: requires at least one
JavaScript whitespace character and consumes the maximal run. -/
def spaces1 : List Char → Option (List Char)
  | [] => none
  | c :: rest => if isJsSpace c then some (rest.dropWhile isJsSpace) else none

/-- First occurrence of a literal substring: returns the part before the
occurrence and the part after it (models lazy `[\s\S]*?` up to a literal,
and `String.prototype.split` / `includes` anchors). -/
def findSub (pat : List Char) : List Char → Option (List Char × List Char)
  | [] => if pat.isEmpty then some ([], []) else none
  | c :: rest =>
    if prefixMatches pat (c :: rest) then some ([], (c :: rest).drop pat.length)
    else (findSub pat rest).map (fun pr => (c :: pr.1, pr.2))

/-- Substring containment test (models the arrow regex test and
`s.includes(..)`). -/
def containsSub (pat : List Char) (s : List Char) : Bool :=
  (findSub pat s).isSome

/-- JavaScript `String.prototype.trim`: drop leading and trailing whitespace. -/
def jsTrim (s : List Char) : List Char :=
  ((s.dropWhile isJsSpace).reverse.dropWhile isJsSpace).reverse

/-- State machine implementing the global replacement `replace(/<[^>]+>/g, "")`:
outside a tag, characters pass through; after a `<`, characters are buffered
until a `>` closes a nonempty tag (the whole span is dropped) or the input
ends (the buffered characters were not part of a match and are emitted
verbatim).  `<>` never matches because `[^>]+` needs at least one character. -/
def stripTagsAux : List Char → Option (List Char) → List Char
  | [], none => []
  | [], some buf => '<' :: buf
  | c :: rest, none =>
    if c == '<' then stripTagsAux rest (some [])
    else c :: stripTagsAux rest none
  | c :: rest, some buf =>
    if c == '>' then
      if buf.isEmpty then '<' :: '>' :: stripTagsAux rest none
      else stripTagsAux rest none
    else stripTagsAux rest (some (buf ++ [c]))

/-- Inline-markup stripping used by the parsers (`replace(/<[^>]+>/g, "")`). -/
def stripTags (s : List Char) : List Char :=
  stripTagsAux s none

/-- JavaScript `split("\n")`: the empty string yields one empty line, a
trailing newline yields a trailing empty line. -/
def splitLines : List Char → List (List Char)
  | [] => [[]]
  | c :: rest =>
    if c == '\n' then [] :: splitLines rest
    else
      match splitLines rest with
      | l :: ls => (c :: l) :: ls
      | [] => [[c]]

/-- Fuelled global replacement of a literal pattern (models
`replace(/lit/g, rep)` for the fixed entity literals; the wrapper passes the
input length as fuel, which suffices because every step consumes at least one
character). -/
def replaceLitF (pat rep : List Char) : ℕ → List Char → List Char
  | 0, s => s
  | _ + 1, [] => []
  | fuel + 1, c :: rest =>
    if prefixMatches pat (c :: rest) then
      rep ++ replaceLitF pat rep fuel ((c :: rest).drop pat.length)
    else c :: replaceLitF pat rep fuel rest

/-- Global replacement of a literal pattern. -/
def replaceLit (pat rep s : List Char) : List Char :=
  replaceLitF pat rep s.length s

/-- Numeric value of a digit run (used for `parseInt` in the numeric
character-reference replacement). -/
def digitsVal (l : List Char) : ℕ :=
  l.foldl (fun a c => a * 10 + (c.toNat - 48)) 0

/-- Fuelled replacement of `/&#(\d+);/g` with `String.fromCharCode(parseInt(n))`.
`fromCharCode` truncates to a UTF-16 code unit, modelled by `% 65536`;
values denoting surrogates (invalid Lean scalar values) fall back to
`Char.ofNat`'s default.  No claim exercises numeric references. -/
def replaceNumEntF : ℕ → List Char → List Char
  | 0, s => s
  | _ + 1, [] => []
  | fuel + 1, c :: rest =>
    if c == '&' then
      match rest with
      | '#' :: r2 =>
        let ds := r2.takeWhile Char.isDigit
        let r3 := r2.dropWhile Char.isDigit
        if ds.isEmpty then c :: replaceNumEntF fuel rest
        else
          match r3 with
          | ';' :: r4 => Char.ofNat (digitsVal ds % 65536) :: replaceNumEntF fuel r4
          | _ => c :: replaceNumEntF fuel rest
      | _ => c :: replaceNumEntF fuel rest
    else c :: replaceNumEntF fuel rest

/-- Replacement of numeric character references. -/
def replaceNumEnt (s : List Char) : List Char :=
  replaceNumEntF s.length s

/-- State machine for `replace(/\s+/g, " ")`: each maximal whitespace run
becomes a single space.  The flag records whether the previous character was
whitespace. -/
def collapseWsAux : Bool → List Char → List Char
  | _, [] => []
  | prevSpace, c :: rest =>
    if isJsSpace c then
      if prevSpace then collapseWsAux true rest
      else ' ' :: collapseWsAux true rest
    else c :: collapseWsAux false rest

/-- Embedding of `decodeHtmlEntities`: the six literal entity replacements,
then numeric character references, then whitespace collapsing, in the
source's order. -/
def decodeHtmlEntities (s : List Char) : List Char :=
  collapseWsAux false
    (replaceNumEnt
      (replaceLit ("&nbsp;".data) (" ".data)
        (replaceLit ("&gt;".data) (">".data)
          (replaceLit ("&lt;".data) ("<".data)
            (replaceLit ("&amp;".data) ("&".data)
              (replaceLit ("&quot;".data) ("\"".data)
                (replaceLit ("&#39;".data) ("'".data) s)))))))

/-- Value of a decimal digit run as a natural number. -/
def decDigitsVal (l : List Char) : ℕ :=
  l.foldl (fun a c => a * 10 + (c.toNat - 48)) 0

/-- Hexadecimal digit test. -/
def isHexDigit (c : Char) : Bool :=
  c.isDigit || ('a' ≤ c && c ≤ 'f') || ('A' ≤ c && c ≤ 'F')

/-- Value of a hexadecimal digit. -/
def hexDigitVal (c : Char) : ℕ :=
  if c.isDigit then c.toNat - 48
  else if 'a' ≤ c && c ≤ 'f' then c.toNat - 87
  else c.toNat - 55

/-- Value of a hexadecimal digit run. -/
def hexDigitsVal (l : List Char) : ℕ :=
  l.foldl (fun a c => a * 16 + hexDigitVal c) 0

/-- JavaScript `parseInt(s)` (no radix argument): skip leading whitespace,
optional sign, then either a `0x`/`0X`-prefixed hexadecimal literal or a
decimal digit run; trailing garbage is ignored; no digits means `NaN`,
modelled as `none`.  (Huge literals lose precision in JavaScript's doubles;
the model keeps them exact, a divergence no claim exercises.) -/
def jsParseIntCore (s : List Char) : Option ℤ :=
  let t := s.dropWhile isJsSpace
  let signAndRest : (ℤ × List Char) :=
    match t with
    | '-' :: r => (-1, r)
    | '+' :: r => (1, r)
    | r => (1, r)
  let sign := signAndRest.1
  let body := signAndRest.2
  match body with
  | '0' :: 'x' :: r =>
    let ds := r.takeWhile isHexDigit
    if ds.isEmpty then none else some (sign * (hexDigitsVal ds : ℤ))
  | '0' :: 'X' :: r =>
    let ds := r.takeWhile isHexDigit
    if ds.isEmpty then none else some (sign * (hexDigitsVal ds : ℤ))
  | _ =>
    let ds := body.takeWhile Char.isDigit
    if ds.isEmpty then none else some (sign * (decDigitsVal ds : ℤ))

/-- `parseInt(s) || 0`: `NaN` (and `0` itself) becomes `0`. -/
def jsParseIntOrZero (s : String) : ℤ :=
  (jsParseIntCore s.data).getD 0

/-- `parseInt(x) || 0` where `x` may be an absent capture (`undefined`,
which `parseInt` turns into `NaN`). -/
def jsParseIntOpt : Option String → ℤ
  | some s => jsParseIntOrZero s
  | none => 0

/-- JavaScript `parseFloat(s)`: skip leading whitespace, optional sign,
then the longest valid decimal literal `digits [. digits] [e[±]digits]`
(also `.digits`); trailing garbage and an incomplete exponent are ignored;
no valid literal means `NaN`, modelled as `none`.  The model is exact over
`ℚ` (IEEE rounding and the `Infinity` literal are below/outside the model;
no claim exercises them). -/
def jsParseFloatCore (s : List Char) : Option ℚ :=
  let t := s.dropWhile isJsSpace
  let signAndRest : (ℚ × List Char) :=
    match t with
    | '-' :: r => (-1, r)
    | '+' :: r => (1, r)
    | r => (1, r)
  let sign := signAndRest.1
  let body := signAndRest.2
  let intDs := body.takeWhile Char.isDigit
  let afterInt := body.dropWhile Char.isDigit
  let fracParse : (List Char × List Char) :=
    match afterInt with
    | '.' :: r => (r.takeWhile Char.isDigit, r.dropWhile Char.isDigit)
    | r => ([], r)
  let fracDs := fracParse.1
  let afterFrac := fracParse.2
  if intDs.isEmpty && fracDs.isEmpty then none
  else
    let mantissa : ℚ :=
      (decDigitsVal intDs : ℚ) + (decDigitsVal fracDs : ℚ) / ((10 : ℚ) ^ fracDs.length)
    let expVal : ℤ :=
      match afterFrac with
      | 'e' :: r => expDigits r
      | 'E' :: r => expDigits r
      | _ => 0
    some (sign * mantissa * (10 : ℚ) ^ expVal)
where
  /-- Optional sign and digit run of an exponent; an incomplete exponent
  contributes nothing (as `parseFloat` stops before the `e`). -/
  expDigits : List Char → ℤ
  | '-' :: r => if (r.takeWhile Char.isDigit).isEmpty then 0 else -(decDigitsVal (r.takeWhile Char.isDigit) : ℤ)
  | '+' :: r => if (r.takeWhile Char.isDigit).isEmpty then 0 else (decDigitsVal (r.takeWhile Char.isDigit) : ℤ)
  | r => if (r.takeWhile Char.isDigit).isEmpty then 0 else (decDigitsVal (r.takeWhile Char.isDigit) : ℤ)

/-- `parseFloat(s) || 0`. -/
def jsParseFloatOrZero (s : String) : ℚ :=
  (jsParseFloatCore s.data).getD 0

/-- `parseFloat(x) || 0` for a possibly absent capture. -/
def jsParseFloatOpt : Option String → ℚ
  | some s => jsParseFloatOrZero s
  | none => 0

/-- `TranscriptSegment` of the source: caption text with start/duration in
seconds. -/
structure TranscriptSegment where
  text : String
  start : ℚ
  duration : ℚ
deriving DecidableEq, Repr

/-- Tail `[^>]*>([^<]*)</text>` of the srv1 element regex: skip to the `>`
closing the opening tag, capture up to the next `<`, require the literal
closing tag; returns the text capture and the input remaining after the
match. -/
def srv1Tail (s : List Char) : Option (List Char × List Char) :=
  match s.dropWhile (fun c => !(c == '>')) with
  | '>' :: r2 =>
    let cap := r2.takeWhile (fun c => !(c == '<'))
    let r3 := r2.dropWhile (fun c => !(c == '<'))
    (dropPrefixL ("</text>".data) r3).map (fun rem => (cap, rem))
  | _ => none

/-- Match of `/<text\s+start="([^"]*)"(?:\s+dur="([^"]*)")?[^>]*>([^<]*)<\/text>/`
at the head of the input: the `start` attribute is mandatory and must be the
first attribute, the `dur` group is optional and — as in the backtracking
regex engine — is taken only when the rest of the pattern also succeeds
after it.  Returns (start capture, optional dur capture, text capture,
remaining input). -/
def srv1MatchAt (s : List Char) : Option (String × Option String × String × List Char) :=
  (dropPrefixL ("<text".data) s).bind fun r1 =>
  (spaces1 r1).bind fun r2 =>
  (dropPrefixL ("start=\"".data) r2).bind fun r3 =>
  (takeUntilQuote r3).bind fun capRest =>
  let cap1 := capRest.1
  let r4 := capRest.2
  let durBranch : Option (String × Option String × String × List Char) :=
    (spaces1 r4).bind fun r5 =>
    (dropPrefixL ("dur=\"".data) r5).bind fun r6 =>
    (takeUntilQuote r6).bind fun capRest2 =>
    (srv1Tail capRest2.2).map fun capRem =>
      (String.mk cap1, some (String.mk capRest2.1), String.mk capRem.1, capRem.2)
  match durBranch with
  | some res => some res
  | none =>
    (srv1Tail r4).map fun capRem =>
      (String.mk cap1, none, String.mk capRem.1, capRem.2)

/-- Fuelled scan loop of `srv1Re.exec`: leftmost match, continue after each
match's end, advance one character after a failed position; a segment is
recorded only when the text capture is non-blank.  The input length is
enough fuel since every step consumes at least one character. -/
def srv1ScanF : ℕ → List Char → List TranscriptSegment
  | 0, _ => []
  | _ + 1, [] => []
  | fuel + 1, c :: rest =>
    match srv1MatchAt (c :: rest) with
    | some (a1, a2, a3, rem) =>
      if (jsTrim a3.data).isEmpty then srv1ScanF fuel rem
      else
        { text := a3, start := jsParseFloatOrZero a1,
          duration := jsParseFloatOpt a2 } :: srv1ScanF fuel rem
    | none => srv1ScanF fuel rest

/-- Segments recognised by the srv1 (tag-per-line) dialect. -/
def srv1Segments (s : List Char) : List TranscriptSegment :=
  srv1ScanF s.length s

/-- Match of `/<s[^>]*>([^<]*)<\/s>/` at the head of the input: returns the
word capture and the remaining input. -/
def sTagMatchAt (s : List Char) : Option (List Char × List Char) :=
  (dropPrefixL ("<s".data) s).bind fun r1 =>
  match r1.dropWhile (fun c => !(c == '>')) with
  | '>' :: r2 =>
    let cap := r2.takeWhile (fun c => !(c == '<'))
    let r3 := r2.dropWhile (fun c => !(c == '<'))
    (dropPrefixL ("</s>".data) r3).map (fun rem => (cap, rem))
  | _ => none

/-- Fuelled scan loop of `sRe.exec` inside a paragraph: collects the nonempty
word captures in order (`if (s[1]) words.push(s[1])`). -/
def sScanF : ℕ → List Char → List (List Char)
  | 0, _ => []
  | _ + 1, [] => []
  | fuel + 1, c :: rest =>
    match sTagMatchAt (c :: rest) with
    | some (cap, rem) =>
      if cap.isEmpty then sScanF fuel rem else cap :: sScanF fuel rem
    | none => sScanF fuel rest

/-- Nonempty word texts of the nested `<s>` elements of a paragraph body. -/
def srv3Words (inner : List Char) : List (List Char) :=
  sScanF inner.length inner

/-- Body of the srv3 per-paragraph loop: millisecond attributes via
`parseInt(..) || 0`, word texts joined with no separator, fallback to
markup-stripped trimmed inner content when no word text was collected, and
no segment at all when the resulting text is empty. -/
def srv3Process (t : String) (d : Option String) (inner : List Char) :
    Option TranscriptSegment :=
  let startMs := jsParseIntOrZero t
  let durMs := jsParseIntOpt d
  let words := srv3Words inner
  let text := if !words.isEmpty then words.flatten else jsTrim (stripTags inner)
  if text.isEmpty then none
  else some { text := String.mk text, start := (startMs : ℚ) / 1000,
              duration := (durMs : ℚ) / 1000 }

/-- Tail `[^>]*>([\s\S]*?)<\/p>` of the srv3 paragraph regex: skip to the
`>` closing the opening tag, then the lazy any-character capture runs up to
the first occurrence of the literal closing tag. -/
def srv3Tail (s : List Char) : Option (List Char × List Char) :=
  match s.dropWhile (fun c => !(c == '>')) with
  | '>' :: r2 => findSub ("</p>".data) r2
  | _ => none

/-- Match of `/<p\s+t="([^"]*)"(?:\s+d="([^"]*)")?[^>]*>([\s\S]*?)<\/p>/` at
the head of the input, with the optional `d` group subject to the same
backtracking rule as `dur` in the srv1 pattern. -/
def srv3MatchAt (s : List Char) : Option (String × Option String × List Char × List Char) :=
  (dropPrefixL ("<p".data) s).bind fun r1 =>
  (spaces1 r1).bind fun r2 =>
  (dropPrefixL ("t=\"".data) r2).bind fun r3 =>
  (takeUntilQuote r3).bind fun capRest =>
  let cap1 := capRest.1
  let r4 := capRest.2
  let dBranch : Option (String × Option String × List Char × List Char) :=
    (spaces1 r4).bind fun r5 =>
    (dropPrefixL ("d=\"".data) r5).bind fun r6 =>
    (takeUntilQuote r6).bind fun capRest2 =>
    (srv3Tail capRest2.2).map fun innerRem =>
      (String.mk cap1, some (String.mk capRest2.1), innerRem.1, innerRem.2)
  match dBranch with
  | some res => some res
  | none =>
    (srv3Tail r4).map fun innerRem =>
      (String.mk cap1, none, innerRem.1, innerRem.2)

/-- Fuelled scan loop of `pRe.exec`. -/
def srv3ScanF : ℕ → List Char → List TranscriptSegment
  | 0, _ => []
  | _ + 1, [] => []
  | fuel + 1, c :: rest =>
    match srv3MatchAt (c :: rest) with
    | some (t, d, inner, rem) =>
      match srv3Process t d inner with
      | some seg => seg :: srv3ScanF fuel rem
      | none => srv3ScanF fuel rem
    | none => srv3ScanF fuel rest

/-- Segments recognised by the srv3 (nested paragraph/word) dialect. -/
def srv3Segments (s : List Char) : List TranscriptSegment :=
  srv3ScanF s.length s

/-- Embedding of `parseTranscriptXml`: the srv1 dialect is attempted first
and its segments are returned whenever there is at least one; only otherwise
is the srv3 dialect attempted. -/
def parseTranscriptXml (xml : String) : List TranscriptSegment :=
  let s1 := srv1Segments xml.data
  if s1.isEmpty then srv3Segments xml.data else s1

/-- Loop of `extractJsonObject`: running depth updated per character and
tested after each update; returns the number of characters consumed when the
depth reaches zero, `none` when the input ends first.  The braces are
written with `\x7b`/`\x7d` escapes. -/
def braceScan : List Char → ℤ → Option ℕ
  | [], _ => none
  | c :: rest, depth =>
    let d := if c == '\x7b' then depth + 1 else if c == '\x7d' then depth - 1 else depth
    if d == 0 then some 1
    else (braceScan rest d).map (fun n => n + 1)

/-- Embedding of `extractJsonObject`: `null` unless the character at
`startIdx` is an opening brace (in particular when `startIdx` is out of
range), else the substring from `startIdx` through the character that
brings the running depth back to zero. -/
def extractJsonObject (str : String) (startIdx : ℕ) : Option String :=
  if (str.data.drop startIdx).head? = some '\x7b' then
    (braceScan (str.data.drop startIdx) 0).map
      (fun n => String.mk ((str.data.drop startIdx).take n))
  else none

/-- Signed brace depth of a character list (opening minus closing braces);
used to state the brace-depth properties of `extractJsonObject`. -/
def braceDiff (l : List Char) : ℤ :=
  (l.count '\x7b' : ℤ) - (l.count '\x7d' : ℤ)

/-- `CaptionTrack` of the source. -/
structure CaptionTrack where
  baseUrl : String
  languageCode : String
deriving DecidableEq, Repr

/-- Predicate of `tracks.find` in `pickTrackUrl`:
`t.languageCode === "en" || t.languageCode.startsWith("en")`. -/
def enMatch (t : CaptionTrack) : Bool :=
  t.languageCode == "en" || prefixMatches ("en".data) t.languageCode.data

/-- Embedding of `pickTrackUrl`: the first English-matching track, else the
first track; `none` models the TypeError the source would raise on an empty
list (its callers guarantee nonemptiness). -/
def pickTrackUrl (tracks : List CaptionTrack) : Option String :=
  match tracks.find? enMatch with
  | some t => some t.baseUrl
  | none => tracks.head?.map CaptionTrack.baseUrl

/-- The six optional-prefix combinations `(?:https?:\/\/)?(?:www\.)?` of the
URL patterns, in the regex engine's greedy exploration order.  At a fixed
position at most one combination can lead to a full match (the literal tails
exclude each other), so first-hit selection is faithful. -/
def urlPrefixCombos : List (List Char) :=
  [("https://www.".data), ("https://".data), ("http://www.".data),
   ("http://".data), ("www.".data), ([])]

/-- Match of an optional prefix combination, a literal URL stem and the
capture `([a-zA-Z0-9_-]+)` (greedy, nonempty) at the head of the input. -/
def idRunAt (pat : List Char) (s : List Char) : Option (List Char) :=
  match dropPrefixL pat s with
  | some (c :: r) => if isIdChar c then some ((c :: r).takeWhile isIdChar) else none
  | _ => none

/-- Match of one full URL pattern at the head of the input. -/
def matchUrlAt (lit : List Char) (s : List Char) : Option (List Char) :=
  urlPrefixCombos.findSome? (fun combo => idRunAt (combo ++ lit) s)

/-- Leftmost match of a URL pattern (`String.prototype.match` without the
global flag): positions are tried left to right. -/
def findCapture (lit : List Char) : List Char → Option (List Char)
  | [] => none
  | c :: rest => matchUrlAt lit (c :: rest) <|> findCapture lit rest

/-- The bare-identifier pattern `/^([a-zA-Z0-9_-]{11})$/`: the whole string
is exactly 11 identifier characters. -/
def bareId (s : List Char) : Option (List Char) :=
  if s.length == 11 && s.all isIdChar then some s else none

/-- Embedding of `extractVideoId`: the four URL patterns in source order,
then the bare-identifier pattern; the first nonempty capture wins (URL
captures are nonempty by construction, matching the `match && match[1]`
guard). -/
def extractVideoId (url : String) : Option String :=
  (findCapture ("youtu.be/".data) url.data <|>
   findCapture ("youtube.com/watch?v=".data) url.data <|>
   findCapture ("youtube.com/embed/".data) url.data <|>
   findCapture ("youtube.com/shorts/".data) url.data <|>
   bareId url.data).map String.mk

/-- Position-wise occurrence test for a URL stem: some suffix of the input
starts with the literal stem followed by an identifier character.  Since the
empty prefix combination is allowed, this is exactly "the URL pattern occurs
somewhere in the string". -/
def hasUrlShape (lit : List Char) : List Char → Bool
  | [] => false
  | c :: rest => (idRunAt lit (c :: rest)).isSome || hasUrlShape lit rest

/-- Structural-line test of the VTT fallback loop: blank line, format
header, `Kind:`/`Language:` metadata, `NOTE`, all-digit cue index, or a
cue-timing line containing the arrow. -/
def isStructuralVttLine (trimmed : List Char) : Bool :=
  trimmed.isEmpty ||
  trimmed == ("WEBVTT".data) ||
  prefixMatches ("Kind:".data) trimmed ||
  prefixMatches ("Language:".data) trimmed ||
  prefixMatches ("NOTE".data) trimmed ||
  (!trimmed.isEmpty && trimmed.all Char.isDigit) ||
  containsSub ("-->".data) trimmed

/-- Cleaning applied to a retained VTT line: the line is trimmed, inline
markup is stripped, and the result trimmed again (`trimmed.replace(tags,
"").trim()`). -/
def cleanVttLine (line : List Char) : List Char :=
  jsTrim (stripTags (jsTrim line))

/-- Loop of the VTT fallback in `fetchTranscriptFromYtDlp`: structural lines
are skipped; a cleaned line is emitted (with zero timing) only when nonempty
and not textually equal to any previously emitted segment. -/
def vttLoop : List (List Char) → List TranscriptSegment → List TranscriptSegment
  | [], acc => acc
  | line :: rest, acc =>
    let trimmed := jsTrim line
    if isStructuralVttLine trimmed then vttLoop rest acc
    else
      let cleaned := jsTrim (stripTags trimmed)
      if !cleaned.isEmpty && !(acc.any (fun s => s.text == String.mk cleaned)) then
        vttLoop rest (acc ++ [{ text := String.mk cleaned, start := 0, duration := 0 }])
      else vttLoop rest acc

/-- Segments produced by the VTT fallback loop on a payload. -/
def vttSegmentsOf (payload : String) : List TranscriptSegment :=
  vttLoop (splitLines payload.data) []

/-- The plain-subtitle (VTT) fallback path of `fetchTranscriptFromYtDlp`
(lines 289–312 of the source): entered only when the payload contains
`WEBVTT`; yields the loop's segments when there is at least one, else
nothing (the strategy then throws its parse-failure error). -/
def vttFallback (subResp : String) : Option (List TranscriptSegment) :=
  if containsSub ("WEBVTT".data) subResp.data then
    let segs := vttSegmentsOf subResp
    if segs.isEmpty then none else some segs
  else none

/-- Zero-padding of `String(n).padStart(2, "0")`. -/
def padStart2 (s : String) : String :=
  String.mk (List.replicate (2 - s.data.length) '0') ++ s

/-- JavaScript truncation toward zero, as performed by the `%` operator's
implicit quotient. -/
def jsTrunc (q : ℚ) : ℤ :=
  if 0 ≤ q then ⌊q⌋ else -⌊-q⌋

/-- JavaScript remainder `a % b`: same sign as the dividend. -/
def jsRem (a b : ℚ) : ℚ :=
  a - b * (jsTrunc (a / b) : ℚ)

/-- Embedding of `formatTimestamp`: `Math.floor(seconds / 60)` and
`Math.floor(seconds % 60)`, each rendered in decimal and padded to two
characters. -/
def formatTimestamp (seconds : ℚ) : String :=
  let mins : ℤ := ⌊seconds / 60⌋
  let secs : ℤ := ⌊jsRem seconds 60⌋
  padStart2 (toString mins) ++ (":") ++ padStart2 (toString secs)

/-- Embedding of `joinSegmentsWithTimestamps`. -/
def joinSegmentsWithTimestamps (segments : List TranscriptSegment) : String :=
  String.intercalate ("\n")
    (segments.map (fun s =>
      ("[") ++ formatTimestamp s.start ++ ("] ") ++
      String.mk (jsTrim (decodeHtmlEntities s.text.data))))

/-- Embedding of `joinSegments`: texts joined with single spaces, entities
decoded once over the joined string, then trimmed. -/
def joinSegments (segments : List TranscriptSegment) : String :=
  String.mk
    (jsTrim (decodeHtmlEntities
      (String.intercalate (" ") (segments.map TranscriptSegment.text)).data))

/-- `TranscriptOptions` of the source. -/
structure TranscriptOptions where
  timestamps : Bool := false
deriving DecidableEq, Repr

/-- Embedding of `formatSegments`. -/
def formatSegments (segments : List TranscriptSegment) (options : TranscriptOptions) : String :=
  if options.timestamps then joinSegmentsWithTimestamps segments
  else joinSegments segments

/-- `TranscriptResult`: the externally visible success value. -/
structure TranscriptResult where
  transcript : String
  title : String
deriving DecidableEq, Repr

/-- Aggregate failure message of `getVideoTranscript`. -/
def aggregateMessage (errs : List String) : String :=
  ("No transcript available. All methods failed:\n") ++
  String.intercalate ("\n") (errs.map (fun e => ("- ") ++ e))

/-- Embedding of the orchestrator `getVideoTranscript`.  Each strategy's
outcome (network and subprocess effects are outside the model) is an input:
`Except.ok` carries the segments a strategy produced, `Except.error` the
message it threw.  The title fetch, which runs concurrently and is attached
to whichever strategy succeeds, is the `title` input.  The first component
of the result records, in order, the strategies whose `try` block was
entered; the second is the returned value or the single aggregate error. -/
def getVideoTranscriptRun (rA rB rC : Except String (List TranscriptSegment))
    (title : String) (options : TranscriptOptions) :
    List String × Except String TranscriptResult :=
  match rA with
  | .ok segments =>
    (["ANDROID API"], .ok { transcript := formatSegments segments options, title := title })
  | .error e1 =>
    match rB with
    | .ok segments =>
      (["ANDROID API", "Page scraping"],
       .ok { transcript := formatSegments segments options, title := title })
    | .error e2 =>
      match rC with
      | .ok segments =>
        (["ANDROID API", "Page scraping", "yt-dlp"],
         .ok { transcript := formatSegments segments options, title := title })
      | .error e3 =>
        (["ANDROID API", "Page scraping", "yt-dlp"],
         .error (aggregateMessage
           [("ANDROID API: ") ++ e1, ("Page scraping: ") ++ e2, ("yt-dlp: ") ++ e3]))

/-! ### General helper lemmas -/

theorem takeWhileOfAll (p : Char → Bool) (l : List Char) (h : l.all p = true) :
    l.takeWhile p = l := by
  induction l with
  | nil => rfl
  | cons c rest ih =>
    simp only [List.all_cons, Bool.and_eq_true] at h
    simp [List.takeWhile_cons, h.1, ih h.2]

theorem joinNeNilOfMem (ls : List (List Char)) (w : List Char)
    (hw : w ∈ ls) (hne : w ≠ []) : ls.flatten ≠ [] := by
  intro hcontra
  rw [List.flatten_eq_nil_iff] at hcontra
  exact hne (hcontra w hw)

/-! ### C9 — totality of the caption parser -/

/-- C9: `parseTranscriptXml` is total: it is a total Lean function of the
input string (the scan loops consume at least one character per step), it
returns the empty list exactly when neither dialect recognised a segment,
and on the spec's degenerate inputs — the empty string, non-XML text, and
malformed/unclosed tags — it returns `[]` rather than failing. -/
theorem parseTranscriptXml_total (xml : String) :
    (parseTranscriptXml xml = [] ↔ srv1Segments xml.data = [] ∧ srv3Segments xml.data = [])
    ∧ parseTranscriptXml ("") = []
    ∧ parseTranscriptXml ("just some text") = []
    ∧ parseTranscriptXml ("<text>unclosed") = []
    ∧ parseTranscriptXml ("<p t=\"3\"><s>unclosed") = [] := by
  refine ⟨?_, by decide, by decide, by decide, by decide⟩
  show (if (srv1Segments xml.data).isEmpty then srv3Segments xml.data
        else srv1Segments xml.data) = [] ↔ _
  rcases h : srv1Segments xml.data with _ | ⟨a, l⟩ <;> simp

/-! ### C6 — track selection -/

/-- C6: `pickTrackUrl` selects the first track (in source order) whose
language code is exactly "en" or starts with "en"; when none matches it
selects the first track; the selection is a function of the track list, and
on the spec's examples it picks the en-US track from [fr, en-US, de] and the
fr track from [fr, de]. -/
theorem pickTrackUrl_spec (pre rest ts : List CaptionTrack)
    (tracks : List CaptionTrack) (t t₀ : CaptionTrack) :
    (tracks = pre ++ t :: rest → (∀ u ∈ pre, enMatch u = false) → enMatch t = true →
       pickTrackUrl tracks = some t.baseUrl)
    ∧ (tracks = t₀ :: ts → (∀ u ∈ tracks, enMatch u = false) →
       pickTrackUrl tracks = some t₀.baseUrl)
    ∧ pickTrackUrl [⟨"u1", "fr"⟩, ⟨"u2", "en-US"⟩, ⟨"u3", "de"⟩] = some ("u2")
    ∧ pickTrackUrl [⟨"u1", "fr"⟩, ⟨"u2", "de"⟩] = some ("u1") := by
  refine ⟨?_, ?_, by decide, by decide⟩
  · intro htr hpre ht
    subst htr
    have hfind : (pre ++ t :: rest).find? enMatch = some t := by
      induction pre with
      | nil => simp [List.find?_cons, ht]
      | cons u us ih =>
        have hu : enMatch u = false := hpre u (by simp)
        have ihs := ih (fun v hv => hpre v (by simp [hv]))
        simp [List.find?_cons, hu, ihs]
    simp [pickTrackUrl, hfind]
  · intro htr hnone
    have hfind : tracks.find? enMatch = none := by
      rw [List.find?_eq_none]
      intro x hx
      simp [hnone x hx]
    subst htr
    simp [pickTrackUrl, hfind]

/-! ### C3 — tag-per-line dialect and its priority -/

/-- C3 counterexample: contrary to "attributes are optional", the
tag-per-line regex requires a `start` attribute — an attribute-less element
(or one carrying only `dur`) produces no segment although its inner text is
non-blank, while the same element with `start` does produce one. -/
theorem srv1_attr_counterexample :
    parseTranscriptXml ("<text>Hello</text>") = []
    ∧ parseTranscriptXml ("<text dur=\"2\">Hello</text>") = []
    ∧ parseTranscriptXml ("<text start=\"0\">Hello</text>") ≠ [] := by
  refine ⟨by decide, by decide, ?_⟩
  have h : parseTranscriptXml ("<text start=\"0\">Hello</text>") =
      [{ text := "Hello", start := 0, duration := 0 }] := by
    with_unfolding_all rfl
  simp [h]

/-- C3 (amended): the tag-per-line dialect matches elements whose first
attribute is `start` (`dur` optional); whenever it yields at least one
(non-blank) segment, `parseTranscriptXml` returns exactly those segments and
never attempts the nested-paragraph dialect, even when nested-paragraph
markup is also present; a `dur`-less element keeps duration 0. -/
theorem srv1_priority_spec (xml : String) (h : srv1Segments xml.data ≠ []) :
    parseTranscriptXml xml = srv1Segments xml.data
    ∧ parseTranscriptXml ("<text start=\"0\">Hi</text><p t=\"0\" d=\"1000\"><s>x</s></p>") =
        [{ text := "Hi", start := 0, duration := 0 }]
    ∧ parseTranscriptXml ("<text start=\"1\" dur=\"2\">A</text>") =
        [{ text := "A", start := 1, duration := 2 }] := by
  refine ⟨?_, by with_unfolding_all rfl, by with_unfolding_all rfl⟩
  show (if (srv1Segments xml.data).isEmpty then srv3Segments xml.data
        else srv1Segments xml.data) = _
  rcases hs : srv1Segments xml.data with _ | ⟨a, l⟩
  · exact absurd hs h
  · simp

/-- Witness for C3 (amended) at the mixed-markup input. -/
theorem srv1_priority_spec_witness :
    parseTranscriptXml ("<text start=\"0\">Hi</text><p t=\"0\" d=\"1000\"><s>x</s></p>") =
      srv1Segments ("<text start=\"0\">Hi</text><p t=\"0\" d=\"1000\"><s>x</s></p>").data
    ∧ parseTranscriptXml ("<text start=\"0\">Hi</text><p t=\"0\" d=\"1000\"><s>x</s></p>") =
        [{ text := "Hi", start := 0, duration := 0 }]
    ∧ parseTranscriptXml ("<text start=\"1\" dur=\"2\">A</text>") =
        [{ text := "A", start := 1, duration := 2 }] :=
  srv1_priority_spec ("<text start=\"0\">Hi</text><p t=\"0\" d=\"1000\"><s>x</s></p>")
    (by
      have h : srv1Segments ("<text start=\"0\">Hi</text><p t=\"0\" d=\"1000\"><s>x</s></p>").data =
          [{ text := "Hi", start := 0, duration := 0 }] := by with_unfolding_all rfl
      simp [h])

/-! ### C2 — the plain-subtitle (VTT) fallback -/

/-- C2 counterexample: the VTT fallback path performs no per-line HTML-entity
decoding — `&amp;` survives in the emitted segment text, and the two payload
lines below (identical after decoding) are not deduplicated into one decoded
segment as the claim requires. -/
theorem vtt_decode_counterexample :
    vttFallback ("WEBVTT\na &amp; b\na & b") =
      some [{ text := "a &amp; b", start := 0, duration := 0 },
            { text := "a & b", start := 0, duration := 0 }] := by
  decide

/-! ### C4 — idempotence of the identifier extractor -/

/-- C4 counterexample: `extractVideoId` is total but not idempotent — the
short-link pattern captures identifiers of any nonzero length, and applied
to such a returned 3-character identifier the extractor yields `none`, not
the identifier itself. -/
theorem extractVideoId_not_idempotent :
    extractVideoId ("youtu.be/abc") = some ("abc")
    ∧ extractVideoId ("abc") = none := by
  exact ⟨by decide, by decide⟩

/-! ### C8 — timestamped rendering -/

/-- C8 counterexample: on a segment with negative start time the rendered
seconds field comes from the truncation-based JavaScript remainder, not from
the floor-based minute/second decomposition the claim describes: start −90
(reachable from the parser) renders as "[-2:-30]", while the floor-based
decomposition of −90 is minutes −2, seconds 30. -/
theorem timestamp_negative_counterexample :
    joinSegmentsWithTimestamps (parseTranscriptXml ("<text start=\"-90\" dur=\"1\">X</text>")) =
      "[-2:-30] X"
    ∧ joinSegmentsWithTimestamps [{ text := "X", start := -90, duration := 0 }] ≠
        ("[") ++ padStart2 (toString ⌊(-90 : ℚ) / 60⌋) ++ (":") ++
        padStart2 (toString (⌊(-90 : ℚ)⌋ - 60 * ⌊(-90 : ℚ) / 60⌋)) ++ ("] X") := by
  constructor
  · with_unfolding_all rfl
  · have h1 : joinSegmentsWithTimestamps [{ text := "X", start := -90, duration := 0 }] =
        "[-2:-30] X" := by with_unfolding_all rfl
    have h2 : ("[") ++ padStart2 (toString ⌊(-90 : ℚ) / 60⌋) ++ (":") ++
        padStart2 (toString (⌊(-90 : ℚ)⌋ - 60 * ⌊(-90 : ℚ) / 60⌋)) ++ ("] X") =
        "[-2:30] X" := by with_unfolding_all rfl
    rw [h1, h2]
    decide

/-! ### C7 — nested-paragraph processing -/

theorem sScanF_mem_ne_nil (fuel : ℕ) :
    ∀ (s w : List Char), w ∈ sScanF fuel s → w ≠ [] := by
  induction fuel with
  | zero => intro s w hw; cases hw
  | succ fuel ih =>
    intro s w hw
    cases s with
    | nil => cases hw
    | cons c rest =>
      simp only [sScanF] at hw
      split at hw
      · split at hw
        · exact ih _ w hw
        · rcases List.mem_cons.mp hw with hw | hw
          · subst hw
            rename_i he
            simpa [List.isEmpty_iff] using he
          · exact ih _ w hw
      · exact ih rest w hw

/-- C7: per-paragraph processing of the nested-paragraph dialect.  When the
nested word elements contribute at least one (nonempty) text, the emitted
segment's text is their concatenation with no inserted separator; when none
do, the fallback is the markup-stripped trimmed inner content, and a
paragraph whose resulting text is empty is skipped; the millisecond `t`/`d`
attributes are converted to seconds by division by 1000.  In particular the
spec's example paragraph yields exactly one segment "one two" at start 0. -/
theorem srv3_paragraph_spec (t : String) (d : Option String) (inner : List Char) :
    (srv3Words inner ≠ [] →
       srv3Process t d inner =
         some { text := String.mk (srv3Words inner).flatten,
                start := (jsParseIntOrZero t : ℚ) / 1000,
                duration := (jsParseIntOpt d : ℚ) / 1000 })
    ∧ (srv3Words inner = [] →
       srv3Process t d inner =
         (if (jsTrim (stripTags inner)).isEmpty then none
          else some { text := String.mk (jsTrim (stripTags inner)),
                      start := (jsParseIntOrZero t : ℚ) / 1000,
                      duration := (jsParseIntOpt d : ℚ) / 1000 }))
    ∧ parseTranscriptXml ("<p t=\"0\" d=\"5000\"><s>one </s><s>two</s></p>") =
        [{ text := "one two", start := 0, duration := 5 }] := by
  refine ⟨?_, ?_, by with_unfolding_all rfl⟩
  · intro hw
    obtain ⟨w, ws, hcons⟩ : ∃ w ws, srv3Words inner = w :: ws := by
      rcases h : srv3Words inner with _ | ⟨w, ws⟩
      · exact absurd h hw
      · exact ⟨w, ws, rfl⟩
    have hwmem : w ∈ srv3Words inner := by rw [hcons]; simp
    have hwne : w ≠ [] := sScanF_mem_ne_nil inner.length inner w hwmem
    have hflat : (srv3Words inner).flatten ≠ [] :=
      joinNeNilOfMem _ w (by rw [hcons]; simp) hwne
    simp only [srv3Process, hcons]
    simp only [← hcons]
    simp [List.isEmpty_iff, hw, hflat]
  · intro hw
    simp [srv3Process, hw]

/-- Witness for C7 at the spec's example paragraph. -/
theorem srv3_paragraph_spec_witness :
    srv3Process ("0") (some ("5000")) (("<s>one </s><s>two</s>").data) =
      some { text := String.mk (srv3Words (("<s>one </s><s>two</s>").data)).flatten,
             start := (jsParseIntOrZero ("0") : ℚ) / 1000,
             duration := (jsParseIntOpt (some ("5000")) : ℚ) / 1000 } :=
  (srv3_paragraph_spec ("0") (some ("5000")) (("<s>one </s><s>two</s>").data)).1
    (by decide)

/-! ### C2 (amended) — VTT fallback behaviour -/

theorem vttLoop_mem (lines : List (List Char)) :
    ∀ (acc : List TranscriptSegment) (seg : TranscriptSegment),
      seg ∈ vttLoop lines acc →
      seg ∈ acc ∨
        (seg.start = 0 ∧ seg.duration = 0 ∧
         ∃ line ∈ lines, isStructuralVttLine (jsTrim line) = false ∧
           seg.text = String.mk (cleanVttLine line) ∧ cleanVttLine line ≠ []) := by
  induction lines with
  | nil => intro acc seg hseg; exact Or.inl hseg
  | cons line rest ih =>
    intro acc seg hseg
    simp only [vttLoop] at hseg
    by_cases hstr : isStructuralVttLine (jsTrim line) = true
    · rw [if_pos hstr] at hseg
      rcases ih acc seg hseg with h | ⟨h0, h1, l, hl, hrest⟩
      · exact Or.inl h
      · exact Or.inr ⟨h0, h1, l, List.mem_cons_of_mem _ hl, hrest⟩
    · rw [if_neg hstr] at hseg
      by_cases hpush :
          (!(jsTrim (stripTags (jsTrim line))).isEmpty &&
           !(acc.any (fun s => s.text == String.mk (jsTrim (stripTags (jsTrim line)))))) = true
      · rw [if_pos hpush] at hseg
        rcases ih _ seg hseg with h | ⟨h0, h1, l, hl, hrest⟩
        · rcases List.mem_append.mp h with h | h
          · exact Or.inl h
          · rcases List.mem_singleton.mp h with rfl
            refine Or.inr ⟨rfl, rfl, line, List.mem_cons_self _ _, ?_, rfl, ?_⟩
            · exact Bool.eq_false_iff.mpr hstr
            · have hne := (Bool.and_eq_true _ _).mp hpush |>.1
              simp only [Bool.not_eq_true'] at hne
              intro hc
              rw [show cleanVttLine line = jsTrim (stripTags (jsTrim line)) from rfl] at hc
              rw [hc] at hne
              simp at hne
        · exact Or.inr ⟨h0, h1, l, List.mem_cons_of_mem _ hl, hrest⟩
      · rw [if_neg hpush] at hseg
        rcases ih acc seg hseg with h | ⟨h0, h1, l, hl, hrest⟩
        · exact Or.inl h
        · exact Or.inr ⟨h0, h1, l, List.mem_cons_of_mem _ hl, hrest⟩

theorem vttLoop_nodup (lines : List (List Char)) :
    ∀ (acc : List TranscriptSegment),
      (acc.map TranscriptSegment.text).Nodup →
      ((vttLoop lines acc).map TranscriptSegment.text).Nodup := by
  induction lines with
  | nil => intro acc hacc; exact hacc
  | cons line rest ih =>
    intro acc hacc
    simp only [vttLoop]
    by_cases hstr : isStructuralVttLine (jsTrim line) = true
    · rw [if_pos hstr]; exact ih acc hacc
    · rw [if_neg hstr]
      by_cases hpush :
          (!(jsTrim (stripTags (jsTrim line))).isEmpty &&
           !(acc.any (fun s => s.text == String.mk (jsTrim (stripTags (jsTrim line)))))) = true
      · rw [if_pos hpush]
        refine ih _ ?_
        have hnotin := (Bool.and_eq_true _ _).mp hpush |>.2
        simp only [Bool.not_eq_true', List.any_eq_false, beq_iff_eq] at hnotin
        have : String.mk (jsTrim (stripTags (jsTrim line))) ∉ acc.map TranscriptSegment.text := by
          intro hc
          rcases List.mem_map.mp hc with ⟨s, hs, hts⟩
          exact absurd hts (hnotin s hs)
        simp [List.nodup_append, hacc, this]
      · rw [if_neg hpush]; exact ih acc hacc

/-- C2 (amended): in the plain-subtitle (VTT) fallback path the payload is
split into lines; structural lines (blank lines, the format header,
`Kind:`/`Language:` metadata, `NOTE` comments, numeric cue-index lines and
arrow cue-timing lines) are discarded; every emitted segment carries start 0
and duration 0 and its text is a trimmed, markup-stripped retained line —
with no per-line HTML-entity decoding — nonempty and deduplicated by exact
text equality against every previously emitted segment. -/
theorem vtt_fallback_spec (payload : String) :
    (∀ seg ∈ vttSegmentsOf payload,
        seg.start = 0 ∧ seg.duration = 0 ∧
        ∃ line ∈ splitLines payload.data,
          isStructuralVttLine (jsTrim line) = false ∧
          seg.text = String.mk (cleanVttLine line) ∧ cleanVttLine line ≠ [])
    ∧ ((vttSegmentsOf payload).map TranscriptSegment.text).Nodup
    ∧ (∀ (line : List Char) (rest : List (List Char)) (acc : List TranscriptSegment),
        isStructuralVttLine (jsTrim line) = true →
        vttLoop (line :: rest) acc = vttLoop rest acc) := by
  refine ⟨?_, ?_, ?_⟩
  · intro seg hseg
    rcases vttLoop_mem (splitLines payload.data) [] seg hseg with h | h
    · cases h
    · exact h
  · exact vttLoop_nodup (splitLines payload.data) [] (by simp)
  · intro line rest acc hline
    simp [vttLoop, hline]

/-- Witness for C2 (amended) at a concrete VTT payload with header,
metadata, cue-index, cue-timing and duplicated text lines. -/
theorem vtt_fallback_spec_witness :
    ((⟨"Hello", 0, 0⟩ : TranscriptSegment).start = 0 ∧
      (⟨"Hello", 0, 0⟩ : TranscriptSegment).duration = 0 ∧
      ∃ line ∈ splitLines ("WEBVTT\nKind: captions\n1\n00:00 --> 00:02\nHello\nHello\nWorld").data,
        isStructuralVttLine (jsTrim line) = false ∧
        (⟨"Hello", 0, 0⟩ : TranscriptSegment).text = String.mk (cleanVttLine line) ∧
        cleanVttLine line ≠ [])
    ∧ ((vttSegmentsOf ("WEBVTT\nKind: captions\n1\n00:00 --> 00:02\nHello\nHello\nWorld")).map
        TranscriptSegment.text).Nodup
    ∧ vttLoop [("00:00 --> 00:02").data] [] = vttLoop [] [] :=
  ⟨(vtt_fallback_spec ("WEBVTT\nKind: captions\n1\n00:00 --> 00:02\nHello\nHello\nWorld")).1
      ⟨"Hello", 0, 0⟩ (by decide),
   (vtt_fallback_spec ("WEBVTT\nKind: captions\n1\n00:00 --> 00:02\nHello\nHello\nWorld")).2.1,
   (vtt_fallback_spec ("WEBVTT\nKind: captions\n1\n00:00 --> 00:02\nHello\nHello\nWorld")).2.2
      (("00:00 --> 00:02").data) [] [] (by decide)⟩

/-! ### C10 — brace-depth JSON extraction -/

theorem braceDiff_nil : braceDiff [] = 0 := by
  simp [braceDiff]

theorem braceDiff_cons (c : Char) (l : List Char) :
    braceDiff (c :: l) =
      braceDiff l + (if c = '\x7b' then 1 else if c = '\x7d' then -1 else 0) := by
  rcases eq_or_ne c '\x7b' with rfl | h1
  · simp [braceDiff, List.count_cons]
    ring
  · rcases eq_or_ne c '\x7d' with rfl | h2
    · simp [braceDiff, List.count_cons, h1, Ne.symm h1]
      ring
    · simp [braceDiff, List.count_cons, h1, h2, Ne.symm h1, Ne.symm h2]

theorem braceDiff_append (a b : List Char) :
    braceDiff (a ++ b) = braceDiff a + braceDiff b := by
  simp [braceDiff, List.count_append]
  ring

theorem braceScan_some_iff (s : List Char) :
    ∀ (d : ℤ) (n : ℕ),
      braceScan s d = some n ↔
        (1 ≤ n ∧ n ≤ s.length ∧ d + braceDiff (s.take n) = 0 ∧
         ∀ k, 1 ≤ k → k < n → d + braceDiff (s.take k) ≠ 0) := by
  induction s with
  | nil =>
    intro d n
    simp only [braceScan, List.length_nil]
    constructor
    · intro h; cases h
    · rintro ⟨h1, h2, -⟩; omega
  | cons c rest ih =>
    intro d n
    simp only [braceScan]
    set dc : ℤ := if c = '\x7b' then 1 else if c = '\x7d' then -1 else 0 with hdc
    have hstep : (if c == '\x7b' then d + 1 else if c == '\x7d' then d - 1 else d) = d + dc := by
      rw [hdc]
      rcases eq_or_ne c '\x7b' with rfl | h1
      · simp
      · rcases eq_or_ne c '\x7d' with rfl | h2
        · simp [h1]; ring
        · simp [h1, h2]
    rw [hstep]
    have htake1 : braceDiff ((c :: rest).take 1) = dc := by
      simp [List.take_succ_cons, braceDiff_cons, braceDiff_nil, hdc]
    by_cases hz : d + dc = 0
    · rw [if_pos (by simpa using hz)]
      constructor
      · rintro ⟨rfl⟩
        refine ⟨le_refl 1, by simp, by rw [htake1]; exact hz, by omega⟩
      · rintro ⟨h1, h2, h3, h4⟩
        rcases Nat.lt_or_ge n 2 with hn | hn
        · have : n = 1 := by omega
          simp [this]
        · exfalso
          exact h4 1 (by omega) (by omega) (by rw [htake1]; exact hz)
    · rw [if_neg (by simpa using hz)]
      constructor
      · intro h
        rcases Option.map_eq_some'.mp h with ⟨m, hm, rfl⟩
        obtain ⟨hm1, hm2, hm3, hm4⟩ := (ih (d + dc) m).mp hm
        refine ⟨by omega, by simp; omega, ?_, ?_⟩
        · rw [List.take_succ_cons, braceDiff_cons]
          omega
        · intro k hk1 hk2
          rcases Nat.lt_or_ge k 2 with hk | hk
          · have : k = 1 := by omega
            rw [this, htake1]
            exact hz
          · obtain ⟨k', rfl⟩ : ∃ k', k = k' + 1 := ⟨k - 1, by omega⟩
            rw [List.take_succ_cons, braceDiff_cons]
            have := hm4 k' (by omega) (by omega)
            omega
      · rintro ⟨h1, h2, h3, h4⟩
        obtain ⟨m, rfl⟩ : ∃ m, n = m + 1 := ⟨n - 1, by omega⟩
        have hm1 : 1 ≤ m := by
          by_contra hm
          have : m = 0 := by omega
          subst this
          rw [List.take_succ_cons, List.take_zero, braceDiff_cons, braceDiff_nil] at h3
          omega
        have : braceScan rest (d + dc) = some m := by
          rw [ih (d + dc) m]
          refine ⟨hm1, by simp at h2; omega, ?_, ?_⟩
          · rw [List.take_succ_cons, braceDiff_cons] at h3
            omega
          · intro k hk1 hk2
            have := h4 (k + 1) (by omega) (by omega)
            rw [List.take_succ_cons, braceDiff_cons] at this
            omega
        rw [this]
        rfl

theorem braceDiff_single_bound (o : Option Char) :
    -1 ≤ braceDiff o.toList ∧ braceDiff o.toList ≤ 1 := by
  rcases o with _ | c
  · simp [braceDiff_nil]
  · simp only [Option.toList_some]
    rw [show braceDiff [c] = braceDiff [] +
          (if c = '\x7b' then 1 else if c = '\x7d' then -1 else 0) from braceDiff_cons c []]
    rw [braceDiff_nil]
    split
    · omega
    · split <;> omega

theorem braceDiff_take_succ (s : List Char) (k : ℕ) :
    braceDiff (s.take (k + 1)) = braceDiff (s.take k) + braceDiff (s[k]?.toList) := by
  rw [List.take_succ, braceDiff_append]

theorem braceWalk_pos (s : List Char) (n : ℕ) (hhead : s.take 1 = ['\x7b'])
    (h4 : ∀ k, 1 ≤ k → k < n → braceDiff (s.take k) ≠ 0) :
    ∀ k, 1 ≤ k → k < n → 1 ≤ braceDiff (s.take k) := by
  intro k
  induction k with
  | zero => intro h; omega
  | succ k ihk =>
    intro hk1 hk2
    rcases Nat.eq_zero_or_pos k with rfl | hkpos
    · rw [show (0 + 1 : ℕ) = 1 from rfl, hhead]
      rw [show braceDiff ['\x7b'] = braceDiff [] +
            (if '\x7b' = '\x7b' then 1 else if '\x7b' = '\x7d' then -1 else 0) from
            braceDiff_cons _ []]
      simp [braceDiff_nil]
    · have hk : 1 ≤ braceDiff (s.take k) := ihk (by omega) (by omega)
      have hstep := braceDiff_take_succ s k
      have hbound := braceDiff_single_bound s[k]?
      have hne := h4 (k + 1) (by omega) hk2
      omega

/-- C10: whenever `extractJsonObject` succeeds, its result is the contiguous
substring of the input starting at the given index, it begins with an
opening brace and ends with a closing brace, its opening- and closing-brace
counts are equal, and every nonempty proper prefix of it has strictly more
opening than closing braces; it returns `none` whenever the character at the
index is not an opening brace or the brace depth never returns to zero
before the end of the input. -/
theorem extractJsonObject_spec (str : String) (i : ℕ) (r : String) :
    (extractJsonObject str i = some r →
       r.data <+: str.data.drop i
       ∧ r.data.head? = some '\x7b'
       ∧ r.data.getLast? = some '\x7d'
       ∧ r.data.count '\x7b' = r.data.count '\x7d'
       ∧ (∀ p : List Char, p <+: r.data → p ≠ [] → p ≠ r.data →
            p.count '\x7d' < p.count '\x7b'))
    ∧ ((str.data.drop i).head? ≠ some '\x7b' → extractJsonObject str i = none)
    ∧ ((∀ k, 1 ≤ k → k ≤ (str.data.drop i).length →
          ((str.data.drop i).take k).count '\x7b' ≠ ((str.data.drop i).take k).count '\x7d') →
       extractJsonObject str i = none) := by
  refine ⟨?_, ?_, ?_⟩
  · intro h
    by_cases hhead : (str.data.drop i).head? = some '\x7b'
    case neg => rw [extractJsonObject, if_neg hhead] at h; cases h
    rw [extractJsonObject, if_pos hhead] at h
    rcases Option.map_eq_some'.mp h with ⟨n, hn, hr⟩
    have hrdata : r.data = (str.data.drop i).take n := by rw [← hr]
    obtain ⟨h1, h2, h3, h4⟩ := (braceScan_some_iff _ 0 n).mp hn
    rw [zero_add] at h3
    simp only [zero_add] at h4
    set s0 := str.data.drop i with hs0
    have htake1 : s0.take 1 = ['\x7b'] := by
      rcases s0 with _ | ⟨c, rest⟩
      · cases hhead
      · simp only [List.head?_cons, Option.some.injEq] at hhead
        simp [hhead]
    have hpos := braceWalk_pos s0 n htake1 h4
    have hn2 : 2 ≤ n := by
      by_contra hcon
      have : n = 1 := by omega
      subst this
      rw [htake1] at h3
      rw [show braceDiff ['\x7b'] = braceDiff [] +
            (if '\x7b' = '\x7b' then 1 else if '\x7b' = '\x7d' then -1 else 0) from
            braceDiff_cons _ []] at h3
      simp [braceDiff_nil] at h3
    refine ⟨?_, ?_, ?_, ?_, ?_⟩
    · rw [hrdata]; exact List.take_prefix n s0
    · rw [hrdata]
      obtain ⟨m, rfl⟩ : ∃ m, n = m + 1 := ⟨n - 1, by omega⟩
      rcases s0 with _ | ⟨c, rest⟩
      · cases hhead
      · simp only [List.head?_cons, Option.some.injEq] at hhead
        simp [List.take_succ_cons, hhead]
    · rw [hrdata]
      have hlast : s0[n - 1]? = some s0[n - 1] := by
        rw [List.getElem?_eq_getElem (by omega)]
      have hsplit : s0.take n = s0.take (n - 1) ++ [s0[n - 1]] := by
        have := List.take_succ (l := s0) (n := n - 1)
        rw [show n - 1 + 1 = n from by omega] at this
        rw [this, hlast]
        rfl
      have hdiffsplit : braceDiff (s0.take n) =
          braceDiff (s0.take (n - 1)) + braceDiff [s0[n - 1]] := by
        rw [hsplit, braceDiff_append]
      have hprev : 1 ≤ braceDiff (s0.take (n - 1)) := hpos (n - 1) (by omega) (by omega)
      have hlastval : braceDiff [s0[n - 1]] = -1 := by
        have hb := braceDiff_single_bound (some s0[n - 1])
        simp only [Option.toList_some] at hb
        omega
      have hchar : s0[n - 1] = '\x7d' := by
        by_contra hcon
        rw [show braceDiff [s0[n - 1]] = braceDiff [] +
              (if s0[n - 1] = '\x7b' then 1 else if s0[n - 1] = '\x7d' then -1 else 0) from
              braceDiff_cons _ []] at hlastval
        rw [braceDiff_nil] at hlastval
        rw [if_neg (by intro hcc; rw [hcc] at hlastval; simp at hlastval)] at hlastval
        rw [if_neg hcon] at hlastval
        simp at hlastval
      rw [hsplit, hchar, List.getLast?_concat]
    · have := h3
      simp only [braceDiff] at this
      rw [hrdata]
      omega
    · intro p hp hpne hpnr
      rw [hrdata] at hp hpnr
      have hle := hp.length_le
      simp only [List.length_take] at hle
      have hplen : p.length ≤ n := by omega
      have hpeq : p = s0.take p.length := by
        have hteq := List.prefix_iff_eq_take.mp hp
        rw [List.take_take] at hteq
        have hmin : min p.length n = p.length := by omega
        rw [hmin] at hteq
        exact hteq
      have hplt : p.length < n := by
        rcases Nat.lt_or_ge p.length n with h | h
        · exact h
        · exfalso
          apply hpnr
          rw [hpeq]
          have : p.length = n := by omega
          rw [this]
      have hp1 : 1 ≤ p.length := by
        rcases p with _ | ⟨a, b⟩
        · exact absurd rfl hpne
        · simp
      have := hpos p.length hp1 hplt
      rw [← hpeq] at this
      simp only [braceDiff] at this
      omega
  · intro hhead
    rw [extractJsonObject, if_neg hhead]
  · intro hz
    by_cases hhead : (str.data.drop i).head? = some '\x7b'
    · rw [extractJsonObject, if_pos hhead]
      rcases hbs : braceScan (str.data.drop i) 0 with _ | n
      · rfl
      · exfalso
        obtain ⟨h1, h2, h3, -⟩ := (braceScan_some_iff _ 0 n).mp hbs
        rw [zero_add] at h3
        simp only [braceDiff] at h3
        exact hz n h1 h2 (by omega)
    · rw [extractJsonObject, if_neg hhead]

/-- Witness for C10: the success branch on a nested-brace input, the
non-brace-start branch, and the never-balanced branch, each at concrete
inputs. -/
theorem extractJsonObject_spec_witness :
    (("\x7ba\x7b\x7db\x7d" : String).data <+: ("x\x7ba\x7b\x7db\x7dy" : String).data.drop 1
     ∧ ("\x7ba\x7b\x7db\x7d" : String).data.head? = some '\x7b'
     ∧ ("\x7ba\x7b\x7db\x7d" : String).data.getLast? = some '\x7d'
     ∧ ("\x7ba\x7b\x7db\x7d" : String).data.count '\x7b' =
         ("\x7ba\x7b\x7db\x7d" : String).data.count '\x7d'
     ∧ (∀ p : List Char, p <+: ("\x7ba\x7b\x7db\x7d" : String).data → p ≠ [] →
          p ≠ ("\x7ba\x7b\x7db\x7d" : String).data →
          p.count '\x7d' < p.count '\x7b'))
    ∧ extractJsonObject ("hello") 0 = none
    ∧ extractJsonObject ("\x7bab") 0 = none :=
  ⟨(extractJsonObject_spec ("x\x7ba\x7b\x7db\x7dy") 1 ("\x7ba\x7b\x7db\x7d")).1 (by decide),
   (extractJsonObject_spec ("hello") 0 ("")).2.1 (by decide),
   (extractJsonObject_spec ("\x7bab") 0 ("")).2.2 (by
      intro k hk1 hk2
      have hlen : (("\x7bab" : String).data.drop 0).length = 3 := rfl
      rw [hlen] at hk2
      interval_cases k <;> decide)⟩

/-! ### C1 — the fallback orchestrator -/

theorem intercalateThree (sep a b c : String) :
    String.intercalate sep [a, b, c] = a ++ sep ++ b ++ sep ++ c := by
  simp [String.intercalate, String.intercalate.go, String.append_assoc]

theorem stringDataEq (x y : String) (h : x.data = y.data) : x = y := by
  cases x
  cases y
  cases h
  rfl

theorem aggregateMessage_eq (e1 e2 e3 : String) :
    aggregateMessage
        [("ANDROID API: ") ++ e1, ("Page scraping: ") ++ e2, ("yt-dlp: ") ++ e3] =
      ("No transcript available. All methods failed:\n- ANDROID API: ") ++ e1 ++
      ("\n- Page scraping: ") ++ e2 ++ ("\n- yt-dlp: ") ++ e3 := by
  apply stringDataEq
  rw [aggregateMessage]
  simp only [List.map_cons, List.map_nil]
  rw [intercalateThree]
  simp only [String.data_append]
  simp [List.append_assoc]

/-- C1: the orchestrator enters the strategies in the fixed order
A (privileged client) → B (page scrape) → C (external tool), recorded in the
attempt log; it returns the formatted segments of the first strategy to
succeed — independently of the (universally quantified) outcomes of the
later strategies, which are not entered; no strategy is entered twice
(`Nodup` log); and when all three fail it produces one error whose message
contains the three recorded failure reasons in strategy order, one per
strategy, as the explicit concatenation shows. -/
theorem getVideoTranscript_orchestration
    (rA rB rC : Except String (List TranscriptSegment)) (title : String)
    (options : TranscriptOptions) :
    (∀ segs, rA = .ok segs →
        getVideoTranscriptRun rA rB rC title options =
          (["ANDROID API"], .ok ⟨formatSegments segs options, title⟩))
    ∧ (∀ e1 segs, rA = .error e1 → rB = .ok segs →
        getVideoTranscriptRun rA rB rC title options =
          (["ANDROID API", "Page scraping"], .ok ⟨formatSegments segs options, title⟩))
    ∧ (∀ e1 e2 segs, rA = .error e1 → rB = .error e2 → rC = .ok segs →
        getVideoTranscriptRun rA rB rC title options =
          (["ANDROID API", "Page scraping", "yt-dlp"],
           .ok ⟨formatSegments segs options, title⟩))
    ∧ (∀ e1 e2 e3, rA = .error e1 → rB = .error e2 → rC = .error e3 →
        getVideoTranscriptRun rA rB rC title options =
          (["ANDROID API", "Page scraping", "yt-dlp"],
           .error (("No transcript available. All methods failed:\n- ANDROID API: ") ++ e1 ++
                   ("\n- Page scraping: ") ++ e2 ++ ("\n- yt-dlp: ") ++ e3)))
    ∧ (getVideoTranscriptRun rA rB rC title options).1.Nodup := by
  refine ⟨?_, ?_, ?_, ?_, ?_⟩
  · rintro segs rfl
    rfl
  · rintro e1 segs rfl rfl
    rfl
  · rintro e1 e2 segs rfl rfl rfl
    rfl
  · rintro e1 e2 e3 rfl rfl rfl
    simp [getVideoTranscriptRun, aggregateMessage_eq]
  · rcases rA with eA | sA <;> rcases rB with eB | sB <;> rcases rC with eC | sC <;>
      simp only [getVideoTranscriptRun] <;> decide

/-- Witness for C1: the all-fail aggregate message and the first-success
short-circuit, at concrete strategy outcomes. -/
theorem getVideoTranscript_orchestration_witness :
    getVideoTranscriptRun (.error ("a")) (.error ("b")) (.error ("c")) ("T") ⟨false⟩ =
      (["ANDROID API", "Page scraping", "yt-dlp"],
       .error (("No transcript available. All methods failed:\n- ANDROID API: ") ++ ("a") ++
               ("\n- Page scraping: ") ++ ("b") ++ ("\n- yt-dlp: ") ++ ("c")))
    ∧ getVideoTranscriptRun (.ok []) (.error ("b")) (.error ("c")) ("T") ⟨false⟩ =
      (["ANDROID API"], .ok ⟨formatSegments [] ⟨false⟩, "T"⟩) :=
  ⟨(getVideoTranscript_orchestration (.error ("a")) (.error ("b")) (.error ("c"))
      ("T") ⟨false⟩).2.2.2.1 ("a") ("b") ("c") rfl rfl rfl,
   (getVideoTranscript_orchestration (.ok []) (.error ("b")) (.error ("c"))
      ("T") ⟨false⟩).1 [] rfl⟩

/-! ### C8 (amended) — timestamped rendering for nonnegative start times -/

theorem jsRem_nonneg_floor (q : ℚ) (hq : 0 ≤ q) :
    ⌊jsRem q 60⌋ = ⌊q⌋ - 60 * ⌊q / 60⌋ := by
  have htr : jsTrunc (q / 60) = ⌊q / 60⌋ := by
    rw [jsTrunc, if_pos (div_nonneg hq (by norm_num))]
  rw [jsRem, htr]
  have hcast : q - 60 * ((⌊q / 60⌋ : ℤ) : ℚ) = q - ((60 * ⌊q / 60⌋ : ℤ) : ℚ) := by
    push_cast
    ring
  rw [hcast, Int.floor_sub_int]

theorem formatTimestamp_nonneg (q : ℚ) (hq : 0 ≤ q) :
    formatTimestamp q =
      padStart2 (toString ⌊q / 60⌋) ++ (":") ++
      padStart2 (toString (⌊q⌋ - 60 * ⌊q / 60⌋)) := by
  rw [formatTimestamp, jsRem_nonneg_floor q hq]

/-- C8 (amended): with timestamp mode on, each segment with nonnegative
start time is rendered as "[MM:SS] " followed by its entity-decoded trimmed
text, where MM and SS are the floor-based minute/second decomposition of the
start time, each zero-padded to two digits, one segment per line; and the
spec's end-to-end example renders as claimed in both modes.  (For negative
start times the seconds field follows the truncation-based JavaScript
remainder instead — see the counterexample.) -/
theorem formatSegments_timestamps_spec (segments : List TranscriptSegment)
    (h : ∀ s ∈ segments, 0 ≤ s.start) :
    formatSegments segments ⟨true⟩ =
      String.intercalate ("\n")
        (segments.map (fun s =>
          ("[") ++ padStart2 (toString ⌊s.start / 60⌋) ++ (":") ++
          padStart2 (toString (⌊s.start⌋ - 60 * ⌊s.start / 60⌋)) ++ ("] ") ++
          String.mk (jsTrim (decodeHtmlEntities s.text.data))))
    ∧ formatSegments
        (parseTranscriptXml
          ("<text start=\"0\" dur=\"2\">Hello</text><text start=\"2\" dur=\"2\">World</text>"))
        ⟨true⟩ = "[00:00] Hello\n[00:02] World"
    ∧ formatSegments
        (parseTranscriptXml
          ("<text start=\"0\" dur=\"2\">Hello</text><text start=\"2\" dur=\"2\">World</text>"))
        ⟨false⟩ = "Hello World" := by
  refine ⟨?_, by with_unfolding_all rfl, by with_unfolding_all rfl⟩
  show joinSegmentsWithTimestamps segments = _
  rw [joinSegmentsWithTimestamps]
  congr 1
  apply List.map_congr_left
  intro s hs
  rw [formatTimestamp_nonneg s.start (h s hs)]
  simp [String.append_assoc]

/-- Witness for C8 (amended) at the spec's example segments. -/
theorem formatSegments_timestamps_spec_witness :
    formatSegments ([⟨"Hello", 0, 2⟩, ⟨"World", 2, 2⟩] : List TranscriptSegment) ⟨true⟩ =
      String.intercalate ("\n")
        (([⟨"Hello", 0, 2⟩, ⟨"World", 2, 2⟩] : List TranscriptSegment).map (fun s =>
          ("[") ++ padStart2 (toString ⌊s.start / 60⌋) ++ (":") ++
          padStart2 (toString (⌊s.start⌋ - 60 * ⌊s.start / 60⌋)) ++ ("] ") ++
          String.mk (jsTrim (decodeHtmlEntities s.text.data)))) :=
  (formatSegments_timestamps_spec ([⟨"Hello", 0, 2⟩, ⟨"World", 2, 2⟩] : List TranscriptSegment)
    (by decide)).1

/-! ### C4 — identifier extraction: totality and (restricted) idempotence -/

theorem dataMk (l : List Char) : (String.mk l).data = l := rfl

theorem stringMkData (s : String) : String.mk s.data = s := rfl

theorem idRunAt_some (pat s cap : List Char) (h : idRunAt pat s = some cap) :
    cap ≠ [] ∧ cap.all isIdChar = true := by
  rw [idRunAt] at h
  split at h
  · rename_i c r heq
    split at h
    · rename_i hc
      injection h with h'
      constructor
      · rw [← h']
        simp [List.takeWhile_cons, hc]
      · rw [← h']
        rw [List.all_eq_true]
        intro x hx
        exact List.mem_takeWhile_imp hx
    · cases h
  · cases h

theorem findCapture_some (lit : List Char) :
    ∀ (s cap : List Char), findCapture lit s = some cap →
      cap ≠ [] ∧ cap.all isIdChar = true := by
  intro s
  induction s with
  | nil => intro cap h; cases h
  | cons c rest ih =>
    intro cap h
    rw [findCapture] at h
    rcases hm : matchUrlAt lit (c :: rest) with _ | x
    · rw [hm, Option.none_orElse] at h
      exact ih cap h
    · rw [hm] at h
      injection h with h'
      subst h'
      rcases List.exists_of_findSome?_eq_some hm with ⟨combo, -, hcombo⟩
      exact idRunAt_some _ _ _ hcombo

theorem bareId_some (s cap : List Char) (h : bareId s = some cap) :
    cap = s ∧ s.length = 11 ∧ s.all isIdChar = true := by
  rw [bareId] at h
  by_cases hc : (s.length == 11 && s.all isIdChar) = true
  · rw [if_pos hc] at h
    injection h with h'
    rcases Bool.and_eq_true _ _ |>.mp hc with ⟨h1, h2⟩
    exact ⟨h'.symm, Nat.beq_eq_true_eq _ _ |>.mp h1, h2⟩
  · rw [if_neg hc] at h
    cases h

theorem extractVideoId_some (s r : String) (h : extractVideoId s = some r) :
    r.data ≠ [] ∧ r.data.all isIdChar = true := by
  rw [extractVideoId] at h
  rcases hmap : (findCapture (("youtu.be/").data) s.data <|>
      findCapture (("youtube.com/watch?v=").data) s.data <|>
      findCapture (("youtube.com/embed/").data) s.data <|>
      findCapture (("youtube.com/shorts/").data) s.data <|>
      bareId s.data) with _ | cap
  · rw [hmap] at h; cases h
  · rw [hmap] at h
    injection h with h'
    have hrd : r.data = cap := by rw [← h', dataMk]
    rw [hrd]
    rcases h1 : findCapture (("youtu.be/").data) s.data with _ | c1
    · rw [h1, Option.none_orElse] at hmap
      rcases h2 : findCapture (("youtube.com/watch?v=").data) s.data with _ | c2
      · rw [h2, Option.none_orElse] at hmap
        rcases h3 : findCapture (("youtube.com/embed/").data) s.data with _ | c3
        · rw [h3, Option.none_orElse] at hmap
          rcases h4 : findCapture (("youtube.com/shorts/").data) s.data with _ | c4
          · rw [h4, Option.none_orElse] at hmap
            rcases bareId_some _ _ hmap with ⟨rfl, h11, hall⟩
            refine ⟨?_, hall⟩
            intro hnil
            rw [hnil] at h11
            cases h11
          · rw [h4] at hmap
            injection hmap with hm'
            subst hm'
            exact findCapture_some _ _ _ h4
        · rw [h3] at hmap
          injection hmap with hm'
          subst hm'
          exact findCapture_some _ _ _ h3
      · rw [h2] at hmap
        injection hmap with hm'
        subst hm'
        exact findCapture_some _ _ _ h2
    · rw [h1] at hmap
      injection hmap with hm'
      subst hm'
      exact findCapture_some _ _ _ h1

theorem dropPrefixL_none_of_allId (pat : List Char) :
    ∀ (s : List Char), (pat.any (fun c => !isIdChar c)) = true →
      s.all isIdChar = true → dropPrefixL pat s = none := by
  induction pat with
  | nil => intro s hpat hs; cases hpat
  | cons p ps ih =>
    intro s hpat hs
    rcases s with _ | ⟨b, bs⟩
    · rfl
    · rw [dropPrefixL]
      by_cases hpb : (p == b) = true
      · rw [if_pos hpb]
        rw [List.all_cons, Bool.and_eq_true] at hs
        have hp : isIdChar p = true := by
          rw [show p = b from beq_iff_eq.mp hpb]
          exact hs.1
        have hps : ps.any (fun c => !isIdChar c) = true := by
          rw [List.any_cons, Bool.or_eq_true] at hpat
          rcases hpat with h | h
          · rw [hp] at h; cases h
          · exact h
        exact ih bs hps hs.2
      · rw [if_neg hpb]

theorem findCapture_none_of_allId (lit : List Char)
    (hcombo : ∀ combo ∈ urlPrefixCombos, ((combo ++ lit).any (fun c => !isIdChar c)) = true) :
    ∀ (s : List Char), s.all isIdChar = true → findCapture lit s = none := by
  intro s
  induction s with
  | nil => intro hs; rfl
  | cons c rest ih =>
    intro hs
    rw [findCapture]
    have hm : matchUrlAt lit (c :: rest) = none := by
      rw [matchUrlAt, List.findSome?_eq_none_iff]
      intro combo hcmem
      rw [idRunAt]
      rw [dropPrefixL_none_of_allId _ _ (hcombo combo hcmem) hs]
    rw [hm, Option.none_orElse]
    rw [List.all_cons, Bool.and_eq_true] at hs
    exact ih hs.2

/-- C4 (amended): `extractVideoId` is total (it is a total Lean function),
and it is idempotent on 11-character results: whenever it returns an
identifier of length 11 — the length of every real video identifier —
re-running it on that identifier returns the identifier unchanged.  (For
captures of other lengths idempotence fails, see the counterexample.) -/
theorem extractVideoId_idempotent_len11 (s r : String)
    (h : extractVideoId s = some r) (hlen : r.length = 11) :
    extractVideoId r = some r := by
  obtain ⟨hne, hall⟩ := extractVideoId_some s r h
  have hdlen : r.data.length = 11 := hlen
  rw [extractVideoId]
  rw [findCapture_none_of_allId _ (by decide) _ hall,
      findCapture_none_of_allId _ (by decide) _ hall,
      findCapture_none_of_allId _ (by decide) _ hall,
      findCapture_none_of_allId _ (by decide) _ hall]
  simp only [Option.none_orElse]
  rw [bareId, if_pos (by simp [hdlen, hall])]
  simp [stringMkData]

/-- Witness for C4 (amended): a full URL extraction followed by the
idempotent re-extraction of the returned 11-character identifier. -/
theorem extractVideoId_idempotent_len11_witness :
    extractVideoId ("dQw4w9WgXcQ") = some ("dQw4w9WgXcQ") :=
  extractVideoId_idempotent_len11 ("https://youtu.be/dQw4w9WgXcQ") ("dQw4w9WgXcQ")
    (by decide) (by decide)

/-! ### C5 — identifier extraction over the four URL shapes -/

theorem idRunAt_nil (pat : List Char) : idRunAt pat [] = none := by
  cases pat <;> rfl

theorem matchUrlAt_nil (lit : List Char) : matchUrlAt lit [] = none := by
  rw [matchUrlAt, List.findSome?_eq_none_iff]
  intro combo hc
  exact idRunAt_nil _

theorem findCapture_of_match (lit s cap : List Char)
    (h : matchUrlAt lit s = some cap) : findCapture lit s = some cap := by
  rcases s with _ | ⟨c, rest⟩
  · rw [matchUrlAt_nil] at h
    cases h
  · rw [findCapture, h]
    rfl

theorem dropPrefixL_append (a b : List Char) :
    ∀ s, dropPrefixL (a ++ b) s = (dropPrefixL a s).bind (fun m => dropPrefixL b m) := by
  induction a with
  | nil => intro s; simp [dropPrefixL]
  | cons p ps ih =>
    intro s
    rcases s with _ | ⟨c, cs⟩
    · simp [dropPrefixL]
    · show dropPrefixL (p :: (ps ++ b)) (c :: cs) = _
      rw [dropPrefixL, dropPrefixL]
      by_cases hpc : (p == c) = true
      · rw [if_pos hpc, if_pos hpc, ih cs]
      · rw [if_neg hpc, if_neg hpc]
        rfl

theorem dropPrefixL_eq_drop (pat : List Char) :
    ∀ s r, dropPrefixL pat s = some r → r = s.drop pat.length := by
  induction pat with
  | nil =>
    intro s r h
    injection h with h'
    rw [← h']
    rfl
  | cons p ps ih =>
    intro s r h
    rcases s with _ | ⟨c, cs⟩
    · cases h
    · rw [dropPrefixL] at h
      by_cases hpc : (p == c) = true
      · rw [if_pos hpc] at h
        rw [List.length_cons, List.drop_succ_cons]
        exact ih cs r h
      · rw [if_neg hpc] at h
        cases h

theorem idRunAt_append (a b s : List Char) :
    idRunAt (a ++ b) s = (dropPrefixL a s).bind (fun m => idRunAt b m) := by
  rw [idRunAt, dropPrefixL_append]
  rcases hdp : dropPrefixL a s with _ | m
  · rfl
  · rw [Option.some_bind, Option.some_bind, idRunAt]

theorem hasUrlShape_drop (lit : List Char) :
    ∀ (s : List Char) (k : ℕ), hasUrlShape lit s = false →
      idRunAt lit (s.drop k) = none := by
  intro s
  induction s with
  | nil =>
    intro k h
    rw [List.drop_nil]
    exact idRunAt_nil _
  | cons c rest ih =>
    intro k h
    rw [hasUrlShape, Bool.or_eq_false_iff] at h
    rcases k with _ | k
    · rw [List.drop_zero]
      rcases hid : idRunAt lit (c :: rest) with _ | x
      · rfl
      · rw [hid] at h
        cases h.1
    · rw [List.drop_succ_cons]
      exact ih k h.2

theorem findCapture_none_of_no_shape (lit : List Char) :
    ∀ (s : List Char), hasUrlShape lit s = false → findCapture lit s = none := by
  intro s
  induction s with
  | nil => intro h; rfl
  | cons c rest ih =>
    intro h
    have hshape := h
    rw [hasUrlShape, Bool.or_eq_false_iff] at hshape
    rw [findCapture]
    have hm : matchUrlAt lit (c :: rest) = none := by
      rw [matchUrlAt, List.findSome?_eq_none_iff]
      intro combo hcmem
      rw [idRunAt_append]
      rcases hdp : dropPrefixL combo (c :: rest) with _ | m
      · rfl
      · rw [Option.some_bind]
        rw [dropPrefixL_eq_drop combo _ _ hdp]
        exact hasUrlShape_drop lit (c :: rest) combo.length h
    rw [hm, Option.none_orElse]
    exact ih hshape.2

/-- C5: for each of the four supported URL shapes embedding an 11-character
identifier, `extractVideoId` returns exactly that identifier; for a bare
string of exactly 11 identifier characters it returns the string itself; and
for a string in none of the four URL shapes whose length differs from 11 it
returns `none`. -/
theorem extractVideoId_shapes_spec (v : List Char) (s : String)
    (hlen : v.length = 11) (hid : v.all isIdChar = true)
    (hshape : ∀ lit ∈ [(("youtu.be/").data), (("youtube.com/watch?v=").data),
        (("youtube.com/embed/").data), (("youtube.com/shorts/").data)],
        hasUrlShape lit s.data = false)
    (hslen : s.length ≠ 11) :
    extractVideoId (String.mk ((("https://youtu.be/").data) ++ v)) = some (String.mk v)
    ∧ extractVideoId (String.mk ((("https://www.youtube.com/watch?v=").data) ++ v)) =
        some (String.mk v)
    ∧ extractVideoId (String.mk ((("https://www.youtube.com/embed/").data) ++ v)) =
        some (String.mk v)
    ∧ extractVideoId (String.mk ((("https://www.youtube.com/shorts/").data) ++ v)) =
        some (String.mk v)
    ∧ extractVideoId (String.mk v) = some (String.mk v)
    ∧ extractVideoId s = none := by
  have hidall := hid
  rcases v with _ | ⟨c, vrest⟩
  · simp at hlen
  rw [List.all_cons, Bool.and_eq_true] at hid
  have hc : isIdChar c = true := hid.1
  have htw : (c :: vrest).takeWhile isIdChar = c :: vrest := takeWhileOfAll _ _ hidall
  have hnone1 : findCapture (("youtu.be/").data) (c :: vrest) = none :=
    findCapture_none_of_allId _ (by decide) _ hidall
  have hnone2 : findCapture (("youtube.com/watch?v=").data) (c :: vrest) = none :=
    findCapture_none_of_allId _ (by decide) _ hidall
  have hnone3 : findCapture (("youtube.com/embed/").data) (c :: vrest) = none :=
    findCapture_none_of_allId _ (by decide) _ hidall
  have hnone4 : findCapture (("youtube.com/shorts/").data) (c :: vrest) = none :=
    findCapture_none_of_allId _ (by decide) _ hidall
  refine ⟨?_, ?_, ?_, ?_, ?_, ?_⟩
  · have e1 : idRunAt ((("https://www.").data) ++ (("youtu.be/").data))
        ((("https://youtu.be/").data) ++ c :: vrest) = none := rfl
    have e2 : idRunAt ((("https://").data) ++ (("youtu.be/").data))
        ((("https://youtu.be/").data) ++ c :: vrest) =
        (if isIdChar c = true then some ((c :: vrest).takeWhile isIdChar) else none) := rfl
    have hm : matchUrlAt (("youtu.be/").data) ((("https://youtu.be/").data) ++ c :: vrest) =
        some (c :: vrest) := by
      rw [matchUrlAt, urlPrefixCombos]
      simp only [List.findSome?_cons, e1, e2, hc, if_true, htw]
    rw [extractVideoId, dataMk, findCapture_of_match _ _ _ hm]
    rfl
  · have hskip : findCapture (("youtu.be/").data)
        ((("https://www.youtube.com/watch?v=").data) ++ c :: vrest) =
        findCapture (("youtu.be/").data) (c :: vrest) := rfl
    have e1 : idRunAt ((("https://www.").data) ++ (("youtube.com/watch?v=").data))
        ((("https://www.youtube.com/watch?v=").data) ++ c :: vrest) =
        (if isIdChar c = true then some ((c :: vrest).takeWhile isIdChar) else none) := rfl
    have hm : matchUrlAt (("youtube.com/watch?v=").data)
        ((("https://www.youtube.com/watch?v=").data) ++ c :: vrest) = some (c :: vrest) := by
      rw [matchUrlAt, urlPrefixCombos]
      simp only [List.findSome?_cons, e1, hc, if_true, htw]
    rw [extractVideoId, dataMk, hskip, hnone1, Option.none_orElse,
        findCapture_of_match _ _ _ hm]
    rfl
  · have hskipA : findCapture (("youtu.be/").data)
        ((("https://www.youtube.com/embed/").data) ++ c :: vrest) =
        findCapture (("youtu.be/").data) (c :: vrest) := rfl
    have hskipB : findCapture (("youtube.com/watch?v=").data)
        ((("https://www.youtube.com/embed/").data) ++ c :: vrest) =
        findCapture (("youtube.com/watch?v=").data) (c :: vrest) := rfl
    have e1 : idRunAt ((("https://www.").data) ++ (("youtube.com/embed/").data))
        ((("https://www.youtube.com/embed/").data) ++ c :: vrest) =
        (if isIdChar c = true then some ((c :: vrest).takeWhile isIdChar) else none) := rfl
    have hm : matchUrlAt (("youtube.com/embed/").data)
        ((("https://www.youtube.com/embed/").data) ++ c :: vrest) = some (c :: vrest) := by
      rw [matchUrlAt, urlPrefixCombos]
      simp only [List.findSome?_cons, e1, hc, if_true, htw]
    rw [extractVideoId, dataMk, hskipA, hnone1, Option.none_orElse, hskipB, hnone2,
        Option.none_orElse, findCapture_of_match _ _ _ hm]
    rfl
  · have hskipA : findCapture (("youtu.be/").data)
        ((("https://www.youtube.com/shorts/").data) ++ c :: vrest) =
        findCapture (("youtu.be/").data) (c :: vrest) := rfl
    have hskipB : findCapture (("youtube.com/watch?v=").data)
        ((("https://www.youtube.com/shorts/").data) ++ c :: vrest) =
        findCapture (("youtube.com/watch?v=").data) (c :: vrest) := rfl
    have hskipC : findCapture (("youtube.com/embed/").data)
        ((("https://www.youtube.com/shorts/").data) ++ c :: vrest) =
        findCapture (("youtube.com/embed/").data) (c :: vrest) := rfl
    have e1 : idRunAt ((("https://www.").data) ++ (("youtube.com/shorts/").data))
        ((("https://www.youtube.com/shorts/").data) ++ c :: vrest) =
        (if isIdChar c = true then some ((c :: vrest).takeWhile isIdChar) else none) := rfl
    have hm : matchUrlAt (("youtube.com/shorts/").data)
        ((("https://www.youtube.com/shorts/").data) ++ c :: vrest) = some (c :: vrest) := by
      rw [matchUrlAt, urlPrefixCombos]
      simp only [List.findSome?_cons, e1, hc, if_true, htw]
    rw [extractVideoId, dataMk, hskipA, hnone1, Option.none_orElse, hskipB, hnone2,
        Option.none_orElse, hskipC, hnone3, Option.none_orElse,
        findCapture_of_match _ _ _ hm]
    rfl
  · rw [extractVideoId, dataMk, hnone1, Option.none_orElse, hnone2, Option.none_orElse,
        hnone3, Option.none_orElse, hnone4, Option.none_orElse]
    rw [bareId, if_pos (by simp [hlen, hidall])]
    rfl
  · have hs1 : findCapture (("youtu.be/").data) s.data = none :=
      findCapture_none_of_no_shape _ _ (hshape _ (by simp))
    have hs2 : findCapture (("youtube.com/watch?v=").data) s.data = none :=
      findCapture_none_of_no_shape _ _ (hshape _ (by simp))
    have hs3 : findCapture (("youtube.com/embed/").data) s.data = none :=
      findCapture_none_of_no_shape _ _ (hshape _ (by simp))
    have hs4 : findCapture (("youtube.com/shorts/").data) s.data = none :=
      findCapture_none_of_no_shape _ _ (hshape _ (by simp))
    have hslen' : s.data.length ≠ 11 := hslen
    rw [extractVideoId, hs1, Option.none_orElse, hs2, Option.none_orElse,
        hs3, Option.none_orElse, hs4, Option.none_orElse]
    rw [bareId, if_neg (by
      intro hcon
      rw [Bool.and_eq_true] at hcon
      have h11 : s.data.length = 11 := by simpa using hcon.1
      exact hslen' h11)]
    rfl

/-- Witness for C5 at the identifier dQw4w9WgXcQ and the shapeless
6-character string hello!. -/
theorem extractVideoId_shapes_spec_witness :
    extractVideoId (String.mk ((("https://youtu.be/").data) ++ ("dQw4w9WgXcQ").data)) =
      some (String.mk (("dQw4w9WgXcQ").data))
    ∧ extractVideoId
        (String.mk ((("https://www.youtube.com/watch?v=").data) ++ ("dQw4w9WgXcQ").data)) =
        some (String.mk (("dQw4w9WgXcQ").data))
    ∧ extractVideoId
        (String.mk ((("https://www.youtube.com/embed/").data) ++ ("dQw4w9WgXcQ").data)) =
        some (String.mk (("dQw4w9WgXcQ").data))
    ∧ extractVideoId
        (String.mk ((("https://www.youtube.com/shorts/").data) ++ ("dQw4w9WgXcQ").data)) =
        some (String.mk (("dQw4w9WgXcQ").data))
    ∧ extractVideoId (String.mk (("dQw4w9WgXcQ").data)) = some (String.mk (("dQw4w9WgXcQ").data))
    ∧ extractVideoId ("hello!") = none :=
  extractVideoId_shapes_spec (("dQw4w9WgXcQ").data) ("hello!")
    (by decide) (by decide) (by decide) (by decide)

/-- Witness for C6 at the spec's two example track lists. -/
theorem pickTrackUrl_spec_witness :
    pickTrackUrl [⟨"u1", "fr"⟩, ⟨"u2", "en-US"⟩, ⟨"u3", "de"⟩] =
      some (CaptionTrack.baseUrl ⟨"u2", "en-US"⟩)
    ∧ pickTrackUrl [⟨"u4", "fr"⟩, ⟨"u5", "de"⟩] =
      some (CaptionTrack.baseUrl ⟨"u4", "fr"⟩) :=
  ⟨(pickTrackUrl_spec [⟨"u1", "fr"⟩] [⟨"u3", "de"⟩] []
      [⟨"u1", "fr"⟩, ⟨"u2", "en-US"⟩, ⟨"u3", "de"⟩] ⟨"u2", "en-US"⟩ ⟨"u1", "fr"⟩).1
      rfl (by decide) (by decide),
   (pickTrackUrl_spec [] [] [⟨"u5", "de"⟩]
      [⟨"u4", "fr"⟩, ⟨"u5", "de"⟩] ⟨"u2", "en-US"⟩ ⟨"u4", "fr"⟩).2.1
      rfl (by decide)⟩
